import Mathlib

/-!
Verification of the storage/auth client façade of this repository.

Strings are modelled as lists of characters (`Str`), so that splitting
and joining paths can be reasoned about structurally. Repository code
that the excerpt only re-exports (the path resolver, the upload task
state machine, the pagination helper, the service registry) is modelled
from the specification, as marked on each definition.
-/

/-- Characters of a JavaScript string, modelled structurally. -/
abbrev Str := List Char

/-- Model of JavaScript `String.prototype.split` with a single-character
separator: splits the string at every occurrence of `sep`, keeping empty
pieces, and always returns at least one piece. -/
def splitOnChar (sep : Char) : Str → List Str
  | [] => [[]]
  | c :: cs =>
    if c = sep then [] :: splitOnChar sep cs
    else (c :: (splitOnChar sep cs).headD []) :: (splitOnChar sep cs).tail

/-- Modelled from the spec: a plain path is split on `/` and empty
segments caused by leading/trailing/double slashes are dropped. -/
def segments (s : Str) : List Str :=
  (splitOnChar '/' s).filter (fun t => t ≠ [])

/-- Modelled from the spec: the retained segments are joined back with a
single `/` between consecutive segments. -/
def joinSlash : List Str → Str
  | [] => []
  | [s] => s
  | s :: t :: rest => s ++ '/' :: joinSlash (t :: rest)

/-- Modelled from the spec: path normalization — split on `/`, drop empty
segments, join with single `/`. -/
def normalizePath (s : Str) : Str :=
  joinSlash (segments s)

/-- Immutable identity of an object location: bucket plus path, the path
kept in the canonical (normalized) form by all reference-producing
operations. -/
structure Reference where
  bucket : Str
  path : Str
deriving DecidableEq, Repr

/-- Modelled from the spec: child resolution appends `childPath` to the
reference's path using the same normalization as plain-path parsing.
Embeds the internal `_getChild` the façade delegates to. -/
def _getChild (r : Reference) (childPath : Str) : Reference :=
  { r with path := normalizePath (r.path ++ '/' :: childPath) }

/-- Modelled from the spec: `ref(refOrService, path?)` applied to a
`Reference`: with no path it returns the same reference, with a path it
resolves the child (an empty string is not a URL, so it takes the
path branch of the overload). -/
def refOfRef (r : Reference) (path : Option Str) : Reference :=
  match path with
  | none => r
  | some p => _getChild r p

/-- A reference path is in canonical form when normalization fixes it. -/
def NormalizedPath (s : Str) : Prop :=
  normalizePath s = s

instance (s : Str) : Decidable (NormalizedPath s) := by
  unfold NormalizedPath; infer_instance

/-- Modelled from the spec: the states of the resumable upload task
state machine (§4.3). -/
inductive TaskState
  | running
  | pausing
  | paused
  | success
  | canceling
  | canceled
  | errored
deriving DecidableEq, Repr

/-- Observable effects of a task transition: a progress event to the
registered observers, a pause event, resolution of the completion
promise with success, rejection with an upload error, or rejection with
a cancellation error. -/
inductive TaskEv
  | progress
  | pauseEmit
  | successResolve
  | errorReject
  | cancelReject
deriving DecidableEq, Repr

/-- Stimuli the task reacts to: the control calls `pause`, `resume`,
`cancel`, completion of the in-flight chunk request (successful, with
or without bytes remaining; transient failure, with or without retry
budget left; fatal failure), and the checkpoint at which a canceling
task abandons any in-flight request. -/
inductive TaskAct
  | pauseCall
  | resumeCall
  | cancelCall
  | chunkOk (moreBytes : Bool)
  | chunkTransientFail (retriesLeft : Bool)
  | chunkFatalFail
  | abandonInflight
deriving DecidableEq, Repr

/-- Modelled from the spec: one transition of the upload task state
machine (§4.3), returning the successor state and the events emitted.
`pause()` while RUNNING enters PAUSING and settles into PAUSED once the
in-flight chunk completes; `resume()` while PAUSED re-enters RUNNING;
`cancel()` from RUNNING, PAUSING or PAUSED enters CANCELING, and the
task settles into CANCELED — rejecting the completion promise with a
cancellation error — once any in-flight request is abandoned; each
successful chunk emits a progress event and either continues or
resolves with SUCCESS; transient failures retry until the budget is
exhausted, fatal failures reject with ERROR; SUCCESS, CANCELED and
ERROR are terminal, all further stimuli are ignored. -/
def taskStep : TaskState → TaskAct → TaskState × List TaskEv
  | .running, .pauseCall => (.pausing, [])
  | .running, .cancelCall => (.canceling, [])
  | .running, .chunkOk true => (.running, [.progress])
  | .running, .chunkOk false => (.success, [.progress, .successResolve])
  | .running, .chunkTransientFail true => (.running, [])
  | .running, .chunkTransientFail false => (.errored, [.errorReject])
  | .running, .chunkFatalFail => (.errored, [.errorReject])
  | .pausing, .cancelCall => (.canceling, [])
  | .pausing, .chunkOk _ => (.paused, [.pauseEmit])
  | .pausing, .chunkTransientFail _ => (.paused, [.pauseEmit])
  | .pausing, .chunkFatalFail => (.errored, [.errorReject])
  | .paused, .resumeCall => (.running, [])
  | .paused, .cancelCall => (.canceling, [])
  | .canceling, .chunkOk _ => (.canceled, [.cancelReject])
  | .canceling, .chunkTransientFail _ => (.canceled, [.cancelReject])
  | .canceling, .chunkFatalFail => (.canceled, [.cancelReject])
  | .canceling, .abandonInflight => (.canceled, [.cancelReject])
  | s, _ => (s, [])

/-- Runs the task state machine over a sequence of stimuli, collecting
every emitted event in order. -/
def taskRun : TaskState → List TaskAct → TaskState × List TaskEv
  | s, [] => (s, [])
  | s, a :: rest =>
    let step := taskStep s a
    let tail := taskRun step.1 rest
    (tail.1, step.2 ++ tail.2)

/-- One page of backend listing results. -/
structure PageData where
  items : List Reference
  prefixes : List Reference
deriving DecidableEq, Repr

/-- Result of one `list` call: the page's items and prefixes, and a
`nextPageToken` exactly when further pages remain. The token is
modelled as the list of remaining pages, opaque to the client. -/
structure ListResult where
  items : List Reference
  prefixes : List Reference
  nextPageToken : Option (List PageData)
deriving DecidableEq, Repr

/-- Modelled from the spec: a single paginated `list` request against a
backend holding the given pages; the response carries a
`nextPageToken` exactly when pages remain after this one. -/
def listPage : List PageData → ListResult
  | [] => ⟨[], [], none⟩
  | p :: rest => ⟨p.items, p.prefixes, if rest = [] then none else some rest⟩

/-- Modelled from the spec: the accumulation loop of `listAll` — issue
`list`, append the returned items and prefixes to the accumulators, and
continue with the returned token until a response carries no
`nextPageToken`. In the continuing branch the response token is exactly
`some rest`, so the recursive call runs on `rest`. -/
def listAllHelper : List Reference → List Reference → List PageData →
    List Reference × List Reference
  | accItems, accPre, [] =>
    (accItems ++ (listPage []).items, accPre ++ (listPage []).prefixes)
  | accItems, accPre, p :: rest =>
    let r := listPage (p :: rest)
    match r.nextPageToken with
    | none => (accItems ++ r.items, accPre ++ r.prefixes)
    | some _ => listAllHelper (accItems ++ r.items) (accPre ++ r.prefixes) rest

/-- Modelled from the spec: `listAll` accumulates items and prefixes
across pages starting from empty accumulators and returns the
concatenation with no `nextPageToken`. -/
def listAll (pages : List PageData) : ListResult :=
  let acc := listAllHelper [] [] pages
  ⟨acc.1, acc.2, none⟩

/-- Tri-state of one metadata field inside an update request: absent
from the request, present with value `null`, or present with a
value. -/
inductive UpdateField
  | absent
  | removeField
  | setTo (v : Str)
deriving DecidableEq, Repr

/-- Modelled from the spec: server-side application of an
`updateMetadata` request to the stored metadata, read back by the
subsequent `getMetadata` — a field present with `null` is deleted, a
field present with a value is replaced, a field absent from the request
keeps its prior value. -/
def applyMetadataUpdate (current : Str → Option Str) (u : Str → UpdateField) :
    Str → Option Str :=
  fun k =>
    match u k with
    | .absent => current k
    | .removeField => none
    | .setTo v => some v

/-- Identity of a Firebase app context. -/
abbrev AppId := Nat

/-- A storage service instance: the app it is scoped to, the bucket
identifier it was requested for, and the emulator endpoint it has been
connected to, if any (a port of `none` models a NaN port value). -/
structure StorageInstance where
  appId : AppId
  bucketId : Option Str
  emulator : Option (Str × Option Int)
deriving DecidableEq, Repr

/-- Modelled from the spec: `connectStorageEmulator` redirects
subsequent requests for the instance to the given emulator host and
port. Embeds the internal `connectStorageEmulator` of the service
module. -/
def connectStorageEmulator (s : StorageInstance) (host : Str)
    (port : Option Int) : StorageInstance :=
  { s with emulator := some (host, port) }

/-- Longest run of leading decimal digits of a string. -/
def leadingDigits : Str → Str
  | [] => []
  | c :: cs => if c.isDigit then c :: leadingDigits cs else []

/-- Value of a string of decimal digits, read base 10. -/
def digitsToNat (s : Str) : Nat :=
  s.foldl (fun acc c => 10 * acc + (c.toNat - '0'.toNat)) 0

/-- Model of the JavaScript builtin `parseInt(s, 10)`: an optional sign
followed by the longest run of leading decimal digits, ignoring any
trailing garbage; `none` models `NaN` (no digits to parse). -/
def parseInt10 (s : Str) : Option Int :=
  match s with
  | [] => none
  | c :: rest =>
    if c = '-' then
      if leadingDigits rest = [] then none
      else some (-(digitsToNat (leadingDigits rest) : Int))
    else if c = '+' then
      if leadingDigits rest = [] then none
      else some ((digitsToNat (leadingDigits rest) : Int))
    else
      if leadingDigits (c :: rest) = [] then none
      else some ((digitsToNat (leadingDigits (c :: rest)) : Int))

/-- Model of `parseInt(x, 10)` applied to a possibly `undefined`
JavaScript value: `parseInt(undefined, 10)` is `NaN`. -/
def parseInt10Undef : Option Str → Option Int
  | none => none
  | some s => parseInt10 s

/-- Key of the service registry: app identity plus bucket identifier. -/
abbrev RegKey := AppId × Option Str

/-- The service registry, an association of keys to constructed
instances. -/
abbrev Registry := List (RegKey × StorageInstance)

/-- Lookup of a key in the registry. -/
def regFind : Registry → RegKey → Option StorageInstance
  | [], _ => none
  | (k2, inst) :: rest, k => if k2 = k then some inst else regFind rest k

/-- Modelled from the spec: the provider's `getImmediate` resolves a
named service instance scoped to an app context — one instance per
distinct bucket identifier per app, constructed once on first request
and returned unchanged afterwards. -/
def getImmediate (reg : Registry) (app : AppId) (bucketId : Option Str) :
    StorageInstance × Registry :=
  match regFind reg (app, bucketId) with
  | some inst => (inst, reg)
  | none =>
    (⟨app, bucketId, none⟩, ((app, bucketId), ⟨app, bucketId, none⟩) :: reg)

/-- Embeds `getStorage`: resolves the provider instance for the
(app, bucket) key; when the storage emulator host environment setting
is present, splits it on `:`, parses the port as a base-10 integer via
`parseInt` and connects the instance to the emulator before returning
it; when absent, returns the instance untouched. -/
def getStorage (emulatorHostEnv : Option Str) (app : AppId)
    (bucketUrl : Option Str) (reg : Registry) : StorageInstance × Registry :=
  let resolved := getImmediate reg app bucketUrl
  match emulatorHostEnv with
  | none => resolved
  | some setting =>
    let parts := splitOnChar ':' setting
    let host := parts.headD []
    let port := parts[1]?
    (connectStorageEmulator resolved.1 host (parseInt10Undef port), resolved.2)

/-- Request body of `createAuthUri`. -/
structure CreateAuthUriRequest where
  identifier : Str
  continueUri : Str
deriving DecidableEq, Repr

/-- Response body of `createAuthUri`; the `signinMethods` field may be
missing. -/
structure CreateAuthUriResponse where
  signinMethods : Option (List Str)
deriving DecidableEq, Repr

/-- The fallback continue URI used outside http(s) environments. -/
def localhostUri : Str := "http://localhost".data

/-- Embeds the request construction of `fetchSignInMethodsForEmail`:
the continue URI is the current URL in an http(s) environment and
`http://localhost` otherwise, and the identifier is the email. -/
def authUriRequest (isHttpOrHttps : Bool) (currentUrl email : Str) :
    CreateAuthUriRequest :=
  { identifier := email,
    continueUri := if isHttpOrHttps then currentUrl else localhostUri }

/-- Embeds `fetchSignInMethodsForEmail`: issues `createAuthUri` for the
built request and returns the response's `signinMethods`, or the empty
array when the field is missing — the result type makes a `null` or
`undefined` resolution impossible. -/
def fetchSignInMethodsForEmail (isHttpOrHttps : Bool) (currentUrl : Str)
    (createAuthUri : CreateAuthUriRequest → CreateAuthUriResponse)
    (email : Str) : List Str :=
  let request := authUriRequest isHttpOrHttps currentUrl email
  match (createAuthUri request).signinMethods with
  | some ms => ms
  | none => []

/-- The user object as `sendEmailVerification` sees it: its ID token and
its current email. -/
structure AuthUser where
  idToken : Str
  email : Option Str
deriving DecidableEq, Repr

/-- Request body of the email-verification API call. -/
structure VerifyEmailRequest where
  requestType : Str
  idToken : Str
  actionSettings : Option Str
deriving DecidableEq, Repr

/-- Response body of the email-verification API call. -/
structure VerifyEmailResponse where
  email : Option Str
deriving DecidableEq, Repr

/-- The `VERIFY_EMAIL` operation tag. -/
def operationVerifyEmail : Str := "VERIFY_EMAIL".data

/-- Embeds the request construction of `sendEmailVerification`: a
VERIFY_EMAIL request carrying the user's ID token, onto which the
action code settings are set when provided. -/
def mkVerifyEmailRequest (idToken : Str) (settings : Option Str) :
    VerifyEmailRequest :=
  match settings with
  | none => ⟨operationVerifyEmail, idToken, none⟩
  | some s => ⟨operationVerifyEmail, idToken, some s⟩

/-- Embeds `sendEmailVerification`: issues the email-verification API
call and invokes `user.reload()` exactly when the email in the response
differs from the user's email. Returns the user object after the call
together with whether `reload` was invoked; `reload` itself is the
externally supplied refresh. -/
def sendEmailVerification (api : VerifyEmailRequest → VerifyEmailResponse)
    (reload : AuthUser → AuthUser) (user : AuthUser)
    (settings : Option Str) : AuthUser × Bool :=
  let request := mkVerifyEmailRequest user.idToken settings
  let resp := api request
  if resp.email ≠ user.email then (reload user, true) else (user, false)

/-- An argument to a façade operation: either a modular instance or a
compat wrapper around one. -/
inductive ModularArg (α : Type) where
  | direct (a : α)
  | compat (a : α)

/-- Modelled from the spec: `getModularInstance` unwraps a possibly
compat-wrapped reference or service argument to the underlying modular
instance. -/
def getModularInstance {α : Type} : ModularArg α → α
  | .direct a => a
  | .compat a => a

/-- The internal implementations the façade delegates to, kept fully
abstract: arbitrary result and payload types and arbitrary functions
into them. -/
structure StorageInternals where
  Data : Type
  UploadMeta : Type
  SettableMeta : Type
  SFormat : Type
  Bytes : Type
  URes : Type
  UTask : Type
  FullMeta : Type
  LOpts : Type
  LRes : Type
  Url : Type
  DRes : Type
  Service : Type
  getBytesInternal : Reference → Option Nat → Bytes
  uploadBytesInternal : Reference → Data → Option UploadMeta → URes
  uploadStringInternal : Reference → Str → Option SFormat → Option UploadMeta → URes
  uploadBytesResumableInternal : Reference → Data → Option UploadMeta → UTask
  getMetadataInternal : Reference → FullMeta
  updateMetadataInternal : Reference → SettableMeta → FullMeta
  listInternal : Reference → Option LOpts → LRes
  listAllInternal : Reference → LRes
  getDownloadURLInternal : Reference → Url
  deleteObjectInternal : Reference → DRes
  refInternal : Service ⊕ Reference → Option Str → Option Reference

/-- Embeds the façade `getBytes`: unwrap the reference, delegate. -/
def facadeGetBytes (I : StorageInternals) (r : ModularArg Reference)
    (maxDownloadSizeBytes : Option Nat) : I.Bytes :=
  let r := getModularInstance r
  I.getBytesInternal r maxDownloadSizeBytes

/-- Embeds the façade `uploadBytes`: unwrap the reference, delegate. -/
def facadeUploadBytes (I : StorageInternals) (r : ModularArg Reference)
    (data : I.Data) (metadata : Option I.UploadMeta) : I.URes :=
  let r := getModularInstance r
  I.uploadBytesInternal r data metadata

/-- Embeds the façade `uploadString`: unwrap the reference, delegate. -/
def facadeUploadString (I : StorageInternals) (r : ModularArg Reference)
    (value : Str) (format : Option I.SFormat)
    (metadata : Option I.UploadMeta) : I.URes :=
  let r := getModularInstance r
  I.uploadStringInternal r value format metadata

/-- Embeds the façade `uploadBytesResumable`: unwrap the reference,
delegate. -/
def facadeUploadBytesResumable (I : StorageInternals)
    (r : ModularArg Reference) (data : I.Data)
    (metadata : Option I.UploadMeta) : I.UTask :=
  let r := getModularInstance r
  I.uploadBytesResumableInternal r data metadata

/-- Embeds the façade `getMetadata`: unwrap the reference, delegate. -/
def facadeGetMetadata (I : StorageInternals) (r : ModularArg Reference) :
    I.FullMeta :=
  let r := getModularInstance r
  I.getMetadataInternal r

/-- Embeds the façade `updateMetadata`: unwrap the reference,
delegate. -/
def facadeUpdateMetadata (I : StorageInternals) (r : ModularArg Reference)
    (metadata : I.SettableMeta) : I.FullMeta :=
  let r := getModularInstance r
  I.updateMetadataInternal r metadata

/-- Embeds the façade `list`: unwrap the reference, delegate. -/
def facadeList (I : StorageInternals) (r : ModularArg Reference)
    (options : Option I.LOpts) : I.LRes :=
  let r := getModularInstance r
  I.listInternal r options

/-- Embeds the façade `listAll`: unwrap the reference, delegate. -/
def facadeListAll (I : StorageInternals) (r : ModularArg Reference) :
    I.LRes :=
  let r := getModularInstance r
  I.listAllInternal r

/-- Embeds the façade `getDownloadURL`: unwrap the reference,
delegate. -/
def facadeGetDownloadURL (I : StorageInternals) (r : ModularArg Reference) :
    I.Url :=
  let r := getModularInstance r
  I.getDownloadURLInternal r

/-- Embeds the façade `deleteObject`: unwrap the reference, delegate. -/
def facadeDeleteObject (I : StorageInternals) (r : ModularArg Reference) :
    I.DRes :=
  let r := getModularInstance r
  I.deleteObjectInternal r

/-- Embeds the façade `ref` overload: unwrap the service-or-reference
argument, delegate. -/
def facadeRef (I : StorageInternals)
    (serviceOrRef : ModularArg (I.Service ⊕ Reference))
    (pathOrUrl : Option Str) : Option Reference :=
  let s := getModularInstance serviceOrRef
  I.refInternal s pathOrUrl

theorem splitOnChar_ne_nil (sep : Char) (l : Str) : splitOnChar sep l ≠ [] := by
  cases l with
  | nil => simp [splitOnChar]
  | cons c cs =>
    simp only [splitOnChar]
    split <;> simp

theorem splitOnChar_append (sep : Char) (a b : Str) :
    splitOnChar sep (a ++ sep :: b) = splitOnChar sep a ++ splitOnChar sep b := by
  induction a with
  | nil => simp [splitOnChar]
  | cons c cs ih =>
    by_cases hc : c = sep
    · simp [splitOnChar, hc, ih]
    · obtain ⟨s0, S, hS⟩ := List.exists_cons_of_ne_nil (splitOnChar_ne_nil sep cs)
      simp [splitOnChar, hc, ih, hS]

theorem mem_splitOnChar_not_mem (sep : Char) (l : Str) :
    ∀ p ∈ splitOnChar sep l, sep ∉ p := by
  induction l with
  | nil => simp [splitOnChar]
  | cons c cs ih =>
    intro p hp
    simp only [splitOnChar] at hp
    split at hp
    · rcases List.mem_cons.mp hp with h | h
      · simp [h]
      · exact ih p h
    · rename_i hc
      obtain ⟨s0, S, hS⟩ := List.exists_cons_of_ne_nil (splitOnChar_ne_nil sep cs)
      rw [hS] at hp
      simp only [List.headD_cons, List.tail_cons] at hp
      rcases List.mem_cons.mp hp with h | h
      · subst h
        intro hmem
        rcases List.mem_cons.mp hmem with h' | h'
        · exact hc h'.symm
        · exact ih s0 (by rw [hS]; exact List.mem_cons_self s0 S) h'
      · exact ih p (by rw [hS]; exact List.mem_cons_of_mem s0 h)

theorem splitOnChar_of_not_mem (sep : Char) (l : Str) (h : sep ∉ l) :
    splitOnChar sep l = [l] := by
  induction l with
  | nil => simp [splitOnChar]
  | cons c cs ih =>
    have hc : c ≠ sep := fun hcc => h (by simp [hcc])
    have hcs : sep ∉ cs := fun hm => h (List.mem_cons_of_mem c hm)
    simp [splitOnChar, hc, ih hcs]

theorem segments_append (a b : Str) :
    segments (a ++ '/' :: b) = segments a ++ segments b := by
  simp [segments, splitOnChar_append, List.filter_append]

theorem segments_nil : segments [] = [] := by
  simp [segments, splitOnChar]

theorem mem_segments_ne_nil_no_slash (s : Str) :
    ∀ p ∈ segments s, p ≠ [] ∧ '/' ∉ p := by
  intro p hp
  simp only [segments, List.mem_filter, decide_eq_true_eq] at hp
  exact ⟨hp.2, mem_splitOnChar_not_mem '/' s p hp.1⟩

theorem segments_joinSlash (L : List Str) (h : ∀ p ∈ L, p ≠ [] ∧ '/' ∉ p) :
    segments (joinSlash L) = L := by
  induction L with
  | nil => simp [joinSlash, segments_nil]
  | cons s L ih =>
    cases L with
    | nil =>
      have hs := h s (List.mem_cons_self s [])
      simp [joinSlash, segments, splitOnChar_of_not_mem '/' s hs.2, hs.1]
    | cons t rest =>
      have hs := h s (List.mem_cons_self s (t :: rest))
      have hrest : ∀ p ∈ t :: rest, p ≠ [] ∧ '/' ∉ p :=
        fun p hp => h p (List.mem_cons_of_mem s hp)
      have hends : segments s = [s] := by
        simp [segments, splitOnChar_of_not_mem '/' s hs.2, hs.1]
      calc segments (joinSlash (s :: t :: rest))
          = segments (s ++ '/' :: joinSlash (t :: rest)) := by rfl
        _ = segments s ++ segments (joinSlash (t :: rest)) := segments_append _ _
        _ = [s] ++ (t :: rest) := by rw [hends, ih hrest]
        _ = s :: t :: rest := rfl

theorem segments_normalizePath (s : Str) :
    segments (normalizePath s) = segments s := by
  exact segments_joinSlash (segments s) (mem_segments_ne_nil_no_slash s)

/-- C4: resolving a child of a child composes with path concatenation —
`child(child(ref, a), b)` yields the same reference as
`child(ref, a ++ "/" ++ b)`. -/
theorem getChild_getChild_eq_getChild_concat (r : Reference) (a b : Str) :
    _getChild (_getChild r a) b = _getChild r (a ++ '/' :: b) := by
  have h1 : segments (normalizePath (r.path ++ '/' :: a) ++ '/' :: b)
      = segments (r.path ++ '/' :: (a ++ '/' :: b)) := by
    simp [segments_append, segments_normalizePath, List.append_assoc]
  unfold _getChild
  simp only [Reference.mk.injEq, true_and]
  exact congrArg joinSlash h1

/-- C5: resolving a reference with an empty relative path is the
identity — `ref(ref, "")` returns a reference with the same bucket and
path as `ref` itself, for any reference whose path is in the canonical
form the resolver maintains. -/
theorem refOfRef_empty_path_identity (r : Reference) (h : NormalizedPath r.path) :
    refOfRef r (some []) = r := by
  unfold refOfRef _getChild
  have hseg : segments (r.path ++ ['/']) = segments r.path := by
    have := segments_append r.path []
    simpa [segments_nil] using this
  have : normalizePath (r.path ++ ['/']) = r.path := by
    unfold normalizePath
    rw [hseg]
    exact h
  simp [this]

/-- Witness for C5 at a concrete normalized reference. -/
theorem refOfRef_empty_path_identity_witness :
    NormalizedPath ['a', '/', 'b'] ∧
      refOfRef ⟨['x'], ['a', '/', 'b']⟩ (some []) = ⟨['x'], ['a', '/', 'b']⟩ :=
  ⟨by decide, refOfRef_empty_path_identity ⟨['x'], ['a', '/', 'b']⟩ (by decide)⟩

theorem taskStep_canceled (a : TaskAct) : taskStep .canceled a = (.canceled, []) := by
  cases a <;> rfl

theorem taskRun_canceled (acts : List TaskAct) :
    taskRun .canceled acts = (.canceled, []) := by
  induction acts with
  | nil => rfl
  | cons a rest ih => simp [taskRun, taskStep_canceled, ih]

/-- C1: calling `cancel()` in any non-terminal state (RUNNING, PAUSING
or PAUSED) brings the task to CANCELED once the in-flight request is
abandoned; the completion promise is rejected with a cancellation
error, and no progress or success event is emitted from the cancel call
on, whatever stimuli follow. -/
theorem cancel_reaches_canceled (s : TaskState)
    (h : s = .running ∨ s = .pausing ∨ s = .paused) (rest : List TaskAct) :
    (taskRun s (.cancelCall :: .abandonInflight :: rest)).1 = .canceled ∧
    TaskEv.cancelReject ∈ (taskRun s (.cancelCall :: .abandonInflight :: rest)).2 ∧
    TaskEv.progress ∉ (taskRun s (.cancelCall :: .abandonInflight :: rest)).2 ∧
    TaskEv.successResolve ∉ (taskRun s (.cancelCall :: .abandonInflight :: rest)).2 := by
  obtain h | h | h := h <;> subst h <;>
    simp [taskRun, taskStep, taskRun_canceled rest]

/-- Witness for C1: cancel from PAUSED, followed by a further stimulus,
ends CANCELED with only the cancellation rejection observed. -/
theorem cancel_reaches_canceled_witness :
    (TaskState.paused = .running ∨ TaskState.paused = .pausing ∨
        TaskState.paused = .paused) ∧
      ((taskRun .paused (.cancelCall :: .abandonInflight :: [.resumeCall])).1 = .canceled ∧
        TaskEv.cancelReject ∈
          (taskRun .paused (.cancelCall :: .abandonInflight :: [.resumeCall])).2 ∧
        TaskEv.progress ∉
          (taskRun .paused (.cancelCall :: .abandonInflight :: [.resumeCall])).2 ∧
        TaskEv.successResolve ∉
          (taskRun .paused (.cancelCall :: .abandonInflight :: [.resumeCall])).2) :=
  ⟨Or.inr (Or.inr rfl),
    cancel_reaches_canceled .paused (Or.inr (Or.inr rfl)) [.resumeCall]⟩

theorem listAllHelper_eq (pages : List PageData) :
    ∀ accItems accPre, listAllHelper accItems accPre pages =
      (accItems ++ (pages.map PageData.items).flatten,
        accPre ++ (pages.map PageData.prefixes).flatten) := by
  induction pages with
  | nil => intro accItems accPre; simp [listAllHelper, listPage]
  | cons p rest ih =>
    intro accItems accPre
    by_cases h : rest = []
    · subst h; simp [listAllHelper, listPage]
    · simp [listAllHelper, listPage, h, ih, List.append_assoc]

/-- C2: `listAll` over a backend of N pages returns exactly the
concatenation, in page order, of the items and of the prefixes of all
pages, and the final result carries no `nextPageToken`. -/
theorem listAll_exact_concatenation (pages : List PageData) :
    listAll pages =
      ⟨(pages.map PageData.items).flatten,
        (pages.map PageData.prefixes).flatten, none⟩ := by
  simp [listAll, listAllHelper_eq]

/-- C3: server-side application of an `updateMetadata` request — a field
present with value `null` is deleted (absent in the `getMetadata`
read-back), while a field absent from the request keeps its prior
value. -/
theorem updateMetadata_null_removes_absent_keeps
    (current : Str → Option Str) (u : Str → UpdateField) (k : Str) :
    (u k = .removeField → applyMetadataUpdate current u k = none) ∧
    (u k = .absent → applyMetadataUpdate current u k = current k) := by
  constructor <;> intro h <;> simp [applyMetadataUpdate, h]

/-- Witness for C3 at concrete metadata maps and update requests. -/
theorem updateMetadata_null_removes_absent_keeps_witness :
    ((fun _ : Str => UpdateField.removeField) ['a'] = UpdateField.removeField ∧
      applyMetadataUpdate (fun _ => some ['v']) (fun _ => UpdateField.removeField)
        ['a'] = none) ∧
    ((fun _ : Str => UpdateField.absent) ['b'] = UpdateField.absent ∧
      applyMetadataUpdate (fun _ => some ['v']) (fun _ => UpdateField.absent)
        ['b'] = some ['v']) :=
  ⟨⟨rfl,
    (updateMetadata_null_removes_absent_keeps (fun _ => some ['v'])
      (fun _ => UpdateField.removeField) ['a']).1 rfl⟩,
   ⟨rfl,
    (updateMetadata_null_removes_absent_keeps (fun _ => some ['v'])
      (fun _ => UpdateField.absent) ['b']).2 rfl⟩⟩

theorem leadingDigits_of_all_digits (s : Str) (h : ∀ c ∈ s, c.isDigit) :
    leadingDigits s = s := by
  induction s with
  | nil => rfl
  | cons c cs ih =>
    have hc := h c (List.mem_cons_self c cs)
    have hcs : ∀ x ∈ cs, x.isDigit := fun x hx => h x (List.mem_cons_of_mem c hx)
    simp [leadingDigits, hc, ih hcs]

theorem parseInt10_digits (s : Str) (hne : s ≠ []) (h : ∀ c ∈ s, c.isDigit) :
    parseInt10 s = some ((digitsToNat s : Int)) := by
  cases s with
  | nil => exact absurd rfl hne
  | cons c rest =>
    have hc := h c (List.mem_cons_self c rest)
    have h1 : ¬c = '-' := by
      intro e; subst e; exact absurd hc (by decide)
    have h2 : ¬c = '+' := by
      intro e; subst e; exact absurd hc (by decide)
    simp [parseInt10, h1, h2, leadingDigits_of_all_digits _ h]

/-- C6: when the storage emulator host environment setting
`host ++ ":" ++ port` is present at `getStorage` time, the returned
instance is exactly the registry instance passed through
`connectStorageEmulator` with the host before the colon and the port
parsed as a base-10 integer; when the setting is absent, no emulator
connection is made and the registry instance is returned untouched. -/
theorem getStorage_emulator_env (app : AppId) (bucketUrl : Option Str)
    (reg : Registry) (host portStr : Str) (hhost : ':' ∉ host)
    (hne : portStr ≠ []) (hdig : ∀ c ∈ portStr, c.isDigit) :
    getStorage (some (host ++ ':' :: portStr)) app bucketUrl reg =
      (connectStorageEmulator (getImmediate reg app bucketUrl).1 host
          (some ((digitsToNat portStr : Int))),
        (getImmediate reg app bucketUrl).2) ∧
    getStorage none app bucketUrl reg = getImmediate reg app bucketUrl := by
  constructor
  · have hcolon : ':' ∉ portStr := by
      intro hm
      exact absurd (hdig ':' hm) (by decide)
    have hsplit : splitOnChar ':' (host ++ ':' :: portStr) = [host, portStr] := by
      rw [splitOnChar_append, splitOnChar_of_not_mem ':' host hhost,
        splitOnChar_of_not_mem ':' portStr hcolon]
      rfl
    simp [getStorage, hsplit, parseInt10Undef, parseInt10_digits portStr hne hdig]
  · rfl

/-- Witness for C6 at a concrete host, digit port and empty registry. -/
theorem getStorage_emulator_env_witness :
    (':' ∉ (['l', 'h'] : Str)) ∧ (['9', '1'] : Str) ≠ [] ∧
      (∀ c ∈ (['9', '1'] : Str), c.isDigit) ∧
      (getStorage (some (['l', 'h'] ++ ':' :: ['9', '1'])) 0 none [] =
          (connectStorageEmulator (getImmediate [] 0 none).1 ['l', 'h']
              (some ((digitsToNat ['9', '1'] : Int))),
            (getImmediate [] 0 none).2) ∧
        getStorage none 0 none [] = getImmediate [] 0 none) :=
  ⟨by decide, by decide, by decide,
    getStorage_emulator_env 0 none [] ['l', 'h'] ['9', '1'] (by decide)
      (by decide) (by decide)⟩

theorem getImmediate_stable (reg : Registry) (app : AppId) (b : Option Str) :
    getImmediate (getImmediate reg app b).2 app b =
      ((getImmediate reg app b).1, (getImmediate reg app b).2) := by
  unfold getImmediate
  cases hfind : regFind reg (app, b) with
  | some inst => simp [hfind]
  | none => simp [hfind, regFind]

/-- C7: `getStorage` is idempotent per (app, bucket) key — a second call
with the same app and bucket identifier, against the registry produced
by the first call, returns the same service instance. -/
theorem getStorage_idempotent (env : Option Str) (app : AppId)
    (b : Option Str) (reg : Registry) :
    (getStorage env app b (getStorage env app b reg).2).1 =
      (getStorage env app b reg).1 := by
  cases env <;> simp [getStorage, getImmediate_stable]

/-- C8: `fetchSignInMethodsForEmail` resolves to the empty array when
the `createAuthUri` response carries no `signinMethods` field and to
that field's value otherwise — in every case an array, never a missing
value. -/
theorem fetchSignInMethods_total (isH : Bool) (url : Str)
    (createAuthUri : CreateAuthUriRequest → CreateAuthUriResponse)
    (email : Str) :
    ((createAuthUri (authUriRequest isH url email)).signinMethods = none →
      fetchSignInMethodsForEmail isH url createAuthUri email = []) ∧
    (∀ ms,
      (createAuthUri (authUriRequest isH url email)).signinMethods = some ms →
        fetchSignInMethodsForEmail isH url createAuthUri email = ms) := by
  constructor
  · intro h
    simp [fetchSignInMethodsForEmail, h]
  · intro ms h
    simp [fetchSignInMethodsForEmail, h]

/-- Witness for C8 at a backend whose response omits `signinMethods`. -/
theorem fetchSignInMethods_total_witness :
    ((fun _ : CreateAuthUriRequest => (⟨none⟩ : CreateAuthUriResponse))
        (authUriRequest true [] [])).signinMethods = none ∧
      fetchSignInMethodsForEmail true [] (fun _ => ⟨none⟩) [] = [] :=
  ⟨rfl, (fetchSignInMethods_total true [] (fun _ => ⟨none⟩) []).1 rfl⟩

/-- C9: `sendEmailVerification` invokes `user.reload()` if and only if
the email in the verification API response differs from the user's
email; when they are equal the user object is returned untouched. -/
theorem sendEmailVerification_reload_iff
    (api : VerifyEmailRequest → VerifyEmailResponse)
    (reload : AuthUser → AuthUser) (user : AuthUser)
    (settings : Option Str) :
    ((sendEmailVerification api reload user settings).2 = true ↔
      (api (mkVerifyEmailRequest user.idToken settings)).email ≠ user.email) ∧
    ((api (mkVerifyEmailRequest user.idToken settings)).email = user.email →
      (sendEmailVerification api reload user settings).1 = user) := by
  constructor
  · by_cases h :
        (api (mkVerifyEmailRequest user.idToken settings)).email = user.email <;>
      simp [sendEmailVerification, h]
  · intro h
    simp [sendEmailVerification, h]

/-- Witness for C9 at a response email equal to the user's email. -/
theorem sendEmailVerification_reload_iff_witness :
    ((fun _ : VerifyEmailRequest => (⟨some ['e']⟩ : VerifyEmailResponse))
        (mkVerifyEmailRequest (AuthUser.mk [] (some ['e'])).idToken none)).email =
      (AuthUser.mk [] (some ['e'])).email ∧
    (sendEmailVerification (fun _ => ⟨some ['e']⟩) id ⟨[], some ['e']⟩ none).1 =
      ⟨[], some ['e']⟩ :=
  ⟨rfl,
    (sendEmailVerification_reload_iff (fun _ => ⟨some ['e']⟩) id
      ⟨[], some ['e']⟩ none).2 rfl⟩

/-- C10: every exported storage façade operation first unwraps its
reference/service argument via `getModularInstance` and returns exactly
the result of the corresponding internal implementation applied to the
unwrapped arguments, for arbitrary internal implementations. -/
theorem facade_unwraps_and_delegates (I : StorageInternals) :
    (∀ r m, facadeGetBytes I r m =
      I.getBytesInternal (getModularInstance r) m) ∧
    (∀ r d md, facadeUploadBytes I r d md =
      I.uploadBytesInternal (getModularInstance r) d md) ∧
    (∀ r v f md, facadeUploadString I r v f md =
      I.uploadStringInternal (getModularInstance r) v f md) ∧
    (∀ r d md, facadeUploadBytesResumable I r d md =
      I.uploadBytesResumableInternal (getModularInstance r) d md) ∧
    (∀ r, facadeGetMetadata I r =
      I.getMetadataInternal (getModularInstance r)) ∧
    (∀ r md, facadeUpdateMetadata I r md =
      I.updateMetadataInternal (getModularInstance r) md) ∧
    (∀ r o, facadeList I r o = I.listInternal (getModularInstance r) o) ∧
    (∀ r, facadeListAll I r = I.listAllInternal (getModularInstance r)) ∧
    (∀ r, facadeGetDownloadURL I r =
      I.getDownloadURLInternal (getModularInstance r)) ∧
    (∀ r, facadeDeleteObject I r =
      I.deleteObjectInternal (getModularInstance r)) ∧
    (∀ s p, facadeRef I s p = I.refInternal (getModularInstance s) p) :=
  ⟨fun _ _ => rfl, fun _ _ _ => rfl, fun _ _ _ _ => rfl, fun _ _ _ => rfl,
    fun _ => rfl, fun _ _ => rfl, fun _ _ => rfl, fun _ => rfl, fun _ => rfl,
    fun _ => rfl, fun _ _ => rfl⟩
